import Mathlib

/-!
# Ember flame solver: the control loop of `flameSolver.cpp`

A shallow embedding of `src/trunk/flameSolver.cpp` (`flameSolver::run`,
`flameSolver::calculateReactantMixture`, `flameSolver::checkTerminationCondition`).

Conventions of the embedding.

* A finite `double` is a rational number, and the arithmetic of the source is carried
  out exactly in `ℚ`; rounding is not modelled.
* A floating-point quotient is taken with `fdiv`, which answers `none` when the divisor
  is zero (the IEEE result is then an infinity or a NaN, not a number).
* `int` counters and indices are unbounded integers; wrap-around is not modelled.
  Sizes (`nPoints`, `nSpec`, `nVars`, `N`, `grid.jj`) are natural numbers.
* Console output (`cout`) and the `clock()` bookkeeping are left out.
* The external collaborators (chemistry provider, DAE integrator, grid) are streams of
  answers collected in `World`, one answer per call, so that every behaviour of a
  collaborator is covered by quantifying over worlds.
-/

namespace Ember

/-! ## Arithmetic helpers -/

/-- Floating-point quotient `a / b` of the source: `none` records that a division by
zero was executed (the IEEE result is an infinity or a NaN). -/
def fdiv {K : Type} [Field K] [DecidableEq K] (a b : K) : Option K :=
  if b = 0 then none else some (a / b)

/-- The comparison `a / b < c` of the source on doubles: an infinity or a NaN obtained
from a zero divisor (with `a ≥ 0`) is never below `c`. -/
def quotientBelow (a b c : ℚ) : Bool :=
  match fdiv a b with
  | none => false
  | some r => decide (r < c)

/-- The indices visited by `for (int j = j1; j <= j2; j++)`. -/
def indexRange (j1 j2 : Int) : List Int :=
  (List.range (j2 - j1 + 1).toNat).map (fun (i : Nat) => j1 + (i : Int))

/-- Element access `v[j]` on a `vector<double>` with an `int` index (in range in every
use the source makes of it). -/
def at_ (v : List ℚ) (j : Int) : ℚ :=
  v.getD j.toNat 0

/-! ## `mathUtils` helpers used by the solver -/

/-- Modelled from the spec: the `mathUtils` comparison `v < x` of a vector with a scalar
(the header `mathUtils.h` is not among the sources); it flags, entry by entry, the
recorded values that are earlier than `x`. -/
def vecLess (v : List ℚ) (x : ℚ) : List Bool :=
  v.map (fun a => decide (a < x))

/-- Scan of `findLast`: `i` is the index of the head of the remaining flags and `acc`
the last flagged index met so far. -/
def findLastFrom : List Bool → Nat → Int → Int
  | [], _, acc => acc
  | b :: bs, i, acc => findLastFrom bs (i + 1) (if b then (i : Int) else acc)

/-- Modelled from the spec: `mathUtils::findLast` (not among the sources), the last
index at which the flag vector is true, `-1` when no entry is true. -/
def findLast (v : List Bool) : Int :=
  findLastFrom v 0 (-1)

/-- Modelled from the spec: `mathUtils::sum` (not among the sources), the sum of the
entries of a vector. -/
def sum {K : Type} [Add K] [Zero K] (v : List K) : K :=
  v.foldl (fun acc x => acc + x) 0

/-- Modelled from the spec: `mathUtils::mean(v, iStart, iEnd)` (not among the sources),
the mean of `v[iStart..iEnd]`, both ends included. -/
def mean (v : List ℚ) (iStart iEnd : Int) : ℚ :=
  (indexRange iStart iEnd).foldl (fun acc j => acc + at_ v j) 0 / ((iEnd - iStart + 1 : Int) : ℚ)

/-! ## Configuration and solver objects -/

/-- The fields of `configOptions` read by `flameSolver.cpp`. -/
structure ConfigOptions where
  terminateForSteadyQdot : Bool
  terminationPeriod : ℚ
  terminationTolerance : ℚ
  terminationAbsTol : ℚ
  terminationMaxTime : ℚ
  idaRelTol : ℚ
  idaContinuityAbsTol : ℚ
  idaMomentumAbsTol : ℚ
  idaEnergyAbsTol : ℚ
  idaSpeciesAbsTol : ℚ
  maxTimestep : ℚ
  outputProfiles : Bool
  flameRadiusControl : Bool
  outputTimeInterval : ℚ
  outputStepInterval : Int
  profileTimeInterval : ℚ
  profileStepInterval : Int
  rFlameUpdateTimeInterval : ℚ
  rFlameUpdateStepInterval : Int
  regridTimeInterval : ℚ
  regridStepInterval : Int
  integratorRestartInterval : Int
  deriving Repr

/-- The fields of `theSys` (class `strainedFlameSys`) and of its grid that
`flameSolver.cpp` reads or writes. -/
structure StrainedFlameSys where
  tStart : ℚ
  tEnd : ℚ
  tNow : ℚ
  tPrev : ℚ
  nPoints : Nat
  nSpec : Nat
  nVars : Nat
  N : Nat
  /-- The vector `grid.dampVal`; an entry is `none` when its quotient had a zero divisor. -/
  dampVal : List (Option ℚ)
  deriving Repr

/-- The members of `flameSolver`. -/
structure FlameSolver where
  options : ConfigOptions
  theSys : StrainedFlameSys
  timeVector : List ℚ
  timestepVector : List ℚ
  heatReleaseRate : List ℚ
  consumptionSpeed : List ℚ
  flamePosition : List ℚ
  deriving Repr

/-! ## `flameSolver::checkTerminationCondition` -/

/-- The loop `for (j = j1; j <= j2; j++) hrrError += abs(heatReleaseRate[j] - qMean)`. -/
def hrrErrorSum (heatReleaseRate : List ℚ) (qMean : ℚ) (j1 j2 : Int) : ℚ :=
  (indexRange j1 j2).foldl (fun hrrError j => hrrError + |at_ heatReleaseRate j - qMean|) 0

/-- `flameSolver::checkTerminationCondition` (lines 296-335). -/
def checkTerminationCondition (fs : FlameSolver) : Bool :=
  if fs.options.terminateForSteadyQdot then
    let j1 := findLast (vecLess fs.timeVector (fs.theSys.tNow - fs.options.terminationPeriod))
    if j1 == -1 then
      false
    else
      let j2 : Int := (fs.timeVector.length : Int) - 1
      let qMean := mean fs.heatReleaseRate j1 j2
      let hrrError := hrrErrorSum fs.heatReleaseRate qMean j1 j2 / ((j2 - j1 + 1 : Int) : ℚ)
      if quotientBelow hrrError |qMean| fs.options.terminationTolerance then
        true
      else if hrrError < fs.options.terminationAbsTol then
        true
      else if fs.theSys.tNow - fs.theSys.tStart > fs.options.terminationMaxTime then
        true
      else
        false
  else
    false

/-! ## The tolerance loop of `flameSolver::run` (lines 78-88) -/

/-- The stores `theSolver.abstol(i) = x` of the tolerance loop at grid point `j`, in
execution order, with `N = theSys.nVars`. -/
def abstolWritesAt (o : ConfigOptions) (N nSpec j : Nat) : List (Nat × ℚ) :=
  [(N * j, o.idaContinuityAbsTol), (N * j + 1, o.idaMomentumAbsTol),
    (N * j + 2, o.idaEnergyAbsTol)]
    ++ (List.range nSpec).map (fun k => (N * j + k + 3, o.idaSpeciesAbsTol))

/-- All stores `theSolver.abstol(i) = x` of the tolerance loop
`for (j = 0; j < nPoints; j++)`, in execution order. -/
def abstolWrites (o : ConfigOptions) (N nPoints nSpec : Nat) : List (Nat × ℚ) :=
  (List.range nPoints).flatMap (abstolWritesAt o N nSpec)

/-- The vector `theSolver.abstol` after the tolerance loop, started from the freshly
constructed vector `abstol`. -/
def assignAbstol (o : ConfigOptions) (N nPoints nSpec : Nat) (abstol : List ℚ) : List ℚ :=
  (abstolWrites o N nPoints nSpec).foldl (fun v w => v.set w.1 w.2) abstol

/-! ## The damping loop of `flameSolver::run` (lines 205-212) -/

/-- The arrays of `theSys` read by the damping loop: viscosity `mu[j]`, conductivity
`lambda[j]`, heat capacity `cp[j]`, velocity `V[j]` and `rhoD(k,j)`. -/
structure Transport where
  mu : List ℚ
  lambda : List ℚ
  cp : List ℚ
  V : List ℚ
  rhoD : Nat → Nat → ℚ

/-- The value stored in `grid.dampVal[j]`: `num / abs(V[j])` with `num` the running
minimum of `mu[j]`, `lambda[j]/cp[j]` and `rhoD(k,j)` for `k < nSpec`. The answer is
`none` when a quotient was taken with a zero divisor. -/
def dampValAt (nSpec : Nat) (tr : Transport) (j : Nat) : Option ℚ := do
  let q ← fdiv (tr.lambda.getD j 0) (tr.cp.getD j 0)
  let num := (List.range nSpec).foldl (fun num k => min num (tr.rhoD k j))
    (min (tr.mu.getD j 0) q)
  fdiv num |tr.V.getD j 0|

/-- The damping loop `for (j = 0; j < nPoints; j++)`: the new content of
`grid.dampVal[0 .. nPoints-1]`. -/
def computeDampVal (nPoints nSpec : Nat) (tr : Transport) : List (Option ℚ) :=
  (List.range nPoints).map (dampValAt nSpec tr)

/-! ## `flameSolver::calculateReactantMixture` (lines 262-294) -/

/-- The accumulators `Cf, Hf, Of, Co, Ho, Oo`: moles of C/H/O in fuel and oxidizer. -/
structure AtomMoles (K : Type) where
  Cf : K
  Hf : K
  Of : K
  Co : K
  Ho : K
  Oo : K

/-- The loop `for (k = 0; k < nSpec; k++)` accumulating the moles of C, H and O, where
`aC k`, `aH k`, `aO k` are the atom counts `a[mC]`, `a[mH]`, `a[mO]` of species `k`. -/
def atomMoles {K : Type} [Field K] (aC aH aO : Nat → K) (Xf Xo : List K) (nSpec : Nat) :
    AtomMoles K :=
  (List.range nSpec).foldl
    (fun m k =>
      { Cf := m.Cf + aC k * Xf.getD k 0
        Co := m.Co + aC k * Xo.getD k 0
        Hf := m.Hf + aH k * Xf.getD k 0
        Ho := m.Ho + aH k * Xo.getD k 0
        Of := m.Of + aO k * Xf.getD k 0
        Oo := m.Oo + aO k * Xo.getD k 0 })
    { Cf := 0, Hf := 0, Of := 0, Co := 0, Ho := 0, Oo := 0 }

/-- Modelled from the spec: the `mathUtils` vector arithmetic of
`Xf*equivalenceRatio + stoichAirFuelRatio*Xo` (not among the sources), taken entry by
entry on two vectors of the same length. -/
def mixVectors {K : Type} [Field K] (Xf : List K) (equivalenceRatio stoichAirFuelRatio : K)
    (Xo : List K) : List K :=
  List.zipWith (fun xf xo => xf * equivalenceRatio + stoichAirFuelRatio * xo) Xf Xo

/-- `flameSolver::calculateReactantMixture`: the new `options.reactants`, from the mole
fractions `Xf`, `Xo` of fuel and oxidizer; `none` when a quotient was taken with a zero
divisor. -/
def calculateReactantMixture {K : Type} [Field K] [DecidableEq K] (aC aH aO : Nat → K)
    (Xf Xo : List K) (nSpec : Nat) (equivalenceRatio : K) : Option (List K) := do
  let m := atomMoles aC aH aO Xf Xo nSpec
  let stoichAirFuelRatio ← fdiv (-(m.Of - 2 * m.Cf - m.Hf / 2)) (m.Oo - 2 * m.Co - m.Ho / 2)
  let reactants := mixVectors Xf equivalenceRatio stoichAirFuelRatio Xo
  let s := sum reactants
  reactants.mapM (fun x => fdiv x s)


/-! ## `flameSolver::run` (lines 25-260) -/

/-- The Sundials status `CV_SUCCESS` (defined as `0` in the Sundials headers, which are
not among the sources). -/
def CV_SUCCESS : Int := 0

/-- How one call `theSolver.integrateOneStep()` ends: it returns a status flag, or the
chemistry provider raises `Cantera::CanteraError` inside it. -/
inductive StepOutcome
  | returned (flag : Int)
  | canteraError
  deriving DecidableEq, Repr

/-- What `run` observes after one call of `integrateOneStep`: how the call ended,
`theSolver.getStepSize()`, `theSolver.tInt`, the time `theSys.tNow` left by the residual
evaluations, the derived scalars of the new state and its transport arrays. -/
structure StepReport where
  outcome : StepOutcome
  stepSize : ℚ
  tInt : ℚ
  tNow : ℚ
  heatReleaseRate : ℚ
  consumptionSpeed : ℚ
  flamePosition : ℚ
  transport : Transport

/-- What `run` observes after the calls `grid.regrid(..)` and `grid.adapt(..)`: their
two results and the value of `grid.jj` afterwards. -/
structure GridReport where
  regridFlag : Bool
  adaptFlag : Bool
  jj : Nat
  deriving DecidableEq, Repr

/-- The external collaborators of `run`, each as the stream of its answers: the flag of
the `n`-th call of `getInitialCondition`, the report of the `n`-th call of
`integrateOneStep`, the report of the `n`-th regrid/adapt evaluation, and the
indeterminate content of the local `flag` (declared without initialiser on line 126)
in the `n`-th outer iteration. -/
structure World where
  getInitialCondition : Nat → Int
  integrateOneStep : Nat → StepReport
  grid : Nat → GridReport
  uninitialized : Nat → Int

/-- The calls `run` makes on its collaborators, in the order of the log. Solvers are
named by their construction number. -/
inductive Event
  /-- The call `theSys.setup()`. -/
  | setup
  /-- The construction `sundialsIDA theSolver(theSys.N)` with its number and size. -/
  | newSolver (id N : Nat)
  /-- The call `theSys.update_rVcenter(t)`. -/
  | update_rVcenter (t : ℚ)
  /-- One call `theSys.getInitialCondition(..)` for solver `id`, with the flag it returned. -/
  | getInitialCondition (id : Nat) (flag : Int)
  /-- The calls `theSolver.setDAE`, `theSolver.initialize()`, `setMaxStepSize`. -/
  | solverInit (id : Nat)
  /-- The call `theSolver.setInitialStepSize(..)`. -/
  | setInitialStepSize (id : Nat) (h : ℚ)
  /-- One call `theSolver.integrateOneStep()` on solver `id`. -/
  | integrateOneStep (id : Nat)
  /-- The call `theSys.writeStateMatFile("errorOutput", true)`. -/
  | writeErrorOutput
  /-- The call `theSys.writeStateMatFile()`. -/
  | writeStateMatFile
  /-- The call `theSys.grid.regrid(..)` with its result. -/
  | regrid (flag : Bool)
  /-- The call `theSys.grid.adapt(..)` with its result. -/
  | adapt (flag : Bool)
  /-- The call `theSys.unrollVectorVector(currentSolution)`. -/
  | unrollVectorVector
  /-- The call `theSys.unrollVectorVectorDot(currentSolutionDot)`. -/
  | unrollVectorVectorDot
  /-- The calls `gas.setStateMass(Y,T)`, `gas.getMassFractions(Y)`. -/
  | correctMassFractions
  /-- The call `theSolver.printStats(..)` on solver `id`. -/
  | printStats (id : Nat)
  deriving DecidableEq, Repr

/-- The state of `run`: the members of the solver object, the locals of `run`, the
current `theSolver` (number, size, tolerances), the number of calls made so far on each
collaborator, and the log of calls. -/
structure RunState where
  fs : FlameSolver
  integratorTimestep : ℚ
  t : ℚ
  dt : ℚ
  nRegrid : Int
  nOutput : Int
  nProfile : Int
  nFlamePos : Int
  nIntegrate : Int
  tOutput : ℚ
  tRegrid : ℚ
  tProfile : ℚ
  tFlamePos : ℚ
  /-- The local `flag` of the outer loop body (line 126). -/
  flag : Int
  /-- Number of the current `theSolver`. -/
  solverId : Nat
  /-- The vector `theSolver.abstol`. -/
  abstol : List ℚ
  /-- Number of solvers constructed so far. -/
  solvers : Nat
  icCalls : Nat
  stepCalls : Nat
  gridCalls : Nat
  log : List Event

/-- How one pass through the body of the inner loop ends: the loop goes on, `break`
leaves the inner loop, or `return` leaves `run`. -/
inductive Control
  | next
  | leave
  | finish
  deriving DecidableEq, Repr

/-- Append one call to the log. -/
def emit (e : Event) (s : RunState) : RunState :=
  { s with log := s.log ++ [e] }

/-- Modelled from the spec: `strainedFlameSys::setup` (its source is not among the
sources) sizes the system for the current grid, `nVars = 3 + nSpec` and
`N = nVars * nPoints`. -/
def StrainedFlameSys.setup (sys : StrainedFlameSys) : StrainedFlameSys :=
  { sys with nVars := 3 + sys.nSpec, N := (3 + sys.nSpec) * sys.nPoints }

/-- The call `theSys.setup()` made by `run`. -/
def callSetup (s : RunState) : RunState :=
  emit .setup { s with fs := { s.fs with theSys := s.fs.theSys.setup } }

/-- Lines 30-65: the locals of `run` before the outer loop. -/
def runInit (fs : FlameSolver) : RunState :=
  let s : RunState :=
    { fs := fs
      integratorTimestep := 0
      t := fs.theSys.tStart
      dt := 0
      nRegrid := 0
      nOutput := 0
      nProfile := 0
      nFlamePos := 0
      nIntegrate := 0
      tOutput := fs.theSys.tStart
      tRegrid := fs.theSys.tStart
      tProfile := fs.theSys.tStart
      tFlamePos := fs.theSys.tStart
      flag := 0
      solverId := 0
      abstol := []
      solvers := 0
      icCalls := 0
      stepCalls := 0
      gridCalls := 0
      log := [] }
  if fs.options.outputProfiles then emit .writeStateMatFile s else s

/-- Lines 102-114: the loop `while (ICflag != 0 && ICcount < 5)`; `budget` is
`5 - ICcount`. -/
def initialConditionLoop (w : World) : Nat → Int → RunState → RunState
  | 0, _, s => s
  | budget + 1, ICflag, s =>
    if ICflag != 0 then
      let flag := w.getInitialCondition s.icCalls
      initialConditionLoop w budget flag
        (emit (.getInitialCondition s.solverId flag) { s with icCalls := s.icCalls + 1 })
    else
      s

/-- Lines 69-126: the head of one pass through the outer loop, up to the declaration of
`flag`. -/
def prepareSegment (w : World) (s : RunState) : RunState :=
  let s := callSetup s
  let o := s.fs.options
  -- sundialsIDA theSolver(theSys.N), and the tolerance loop
  let s := emit (.newSolver s.solvers s.fs.theSys.N)
    { s with
        solverId := s.solvers
        solvers := s.solvers + 1
        abstol := assignAbstol o s.fs.theSys.nVars s.fs.theSys.nPoints s.fs.theSys.nSpec
          (List.replicate s.fs.theSys.N 0) }
  -- theSys.update_rVcenter(t); tFlamePos = t + ...; nFlamePos = 0
  let s := emit (.update_rVcenter s.t)
    { s with tFlamePos := s.t + o.rFlameUpdateTimeInterval, nFlamePos := 0 }
  -- int ICflag = -1; int ICcount = 0; while (..)
  let s := initialConditionLoop w 5 (-1) s
  -- theSolver.setDAE(&theSys); theSolver.initialize(); setMaxStepSize
  let s := emit (.solverInit s.solverId) s
  let s := if s.integratorTimestep ≤ 0 then
      emit (.setInitialStepSize s.solverId s.integratorTimestep) s
    else s
  -- int flag;
  { s with flag := w.uninitialized s.solverId }

/-- Lines 130-137: one call of `integrateOneStep` inside `try`, the `catch` clause, and
the reading of step size and time. A raised `CanteraError` leaves `flag` as it was. -/
def stepStage (w : World) (s : RunState) : RunState :=
  let r := w.integrateOneStep s.stepCalls
  let s := emit (.integrateOneStep s.solverId) { s with stepCalls := s.stepCalls + 1 }
  let s := match r.outcome with
    | .returned flag => { s with flag := flag }
    | .canteraError => emit .writeErrorOutput s
  { s with
      dt := r.stepSize
      integratorTimestep := r.stepSize
      t := r.tInt
      fs := { s.fs with theSys := { s.fs.theSys with tPrev := r.tInt, tNow := r.tNow } } }

/-- Lines 157-167: the output trigger. -/
def outputStage (r : StepReport) (s : RunState) : RunState :=
  if s.t > s.tOutput ∨ s.nOutput ≥ s.fs.options.outputStepInterval then
    { s with
        fs := { s.fs with
          timeVector := s.fs.timeVector ++ [s.t]
          timestepVector := s.fs.timestepVector ++ [s.dt]
          heatReleaseRate := s.fs.heatReleaseRate ++ [r.heatReleaseRate]
          consumptionSpeed := s.fs.consumptionSpeed ++ [r.consumptionSpeed]
          flamePosition := s.fs.flamePosition ++ [r.flamePosition] }
        tOutput := s.t + s.fs.options.outputTimeInterval
        nOutput := 0 }
  else s

/-- Lines 169-176: the profile trigger. -/
def profileStage (s : RunState) : RunState :=
  if s.t > s.tProfile ∨ s.nProfile ≥ s.fs.options.profileStepInterval then
    let s := if s.fs.options.outputProfiles then emit .writeStateMatFile s else s
    { s with tProfile := s.t + s.fs.options.profileTimeInterval, nProfile := 0 }
  else s

/-- Lines 178-184: the flame-position trigger. -/
def flamePosStage (s : RunState) : RunState :=
  if s.fs.options.flameRadiusControl = true ∧
      (s.t > s.tFlamePos ∨ s.nFlamePos > s.fs.options.rFlameUpdateStepInterval) then
    let s := emit (.update_rVcenter s.t) s
    { s with tFlamePos := s.t + s.fs.options.rFlameUpdateTimeInterval, nFlamePos := 0 }
  else s

/-- Lines 186-236: the regrid trigger, with the termination check, the damping loop and
the calls of `regrid` and `adapt`. -/
def regridStage (w : World) (r : StepReport) (s : RunState) : Control × RunState :=
  if s.t > s.tRegrid ∨ s.nRegrid ≥ s.fs.options.regridStepInterval then
    let s := { s with tRegrid := s.t + s.fs.options.regridTimeInterval, nRegrid := 0 }
    if checkTerminationCondition s.fs then
      let s := emit (.printStats s.solverId) s
      let s := if s.fs.options.outputProfiles then emit .writeStateMatFile s else s
      (.finish, s)
    else
      let s := { s with fs := { s.fs with theSys := { s.fs.theSys with
        dampVal := computeDampVal s.fs.theSys.nPoints s.fs.theSys.nSpec r.transport } } }
      let g := w.grid s.gridCalls
      let s := emit (.adapt g.adaptFlag)
        (emit (.regrid g.regridFlag) { s with gridCalls := s.gridCalls + 1 })
      if g.adaptFlag || g.regridFlag then
        let s := { s with
          nIntegrate := 0
          fs := { s.fs with theSys := { s.fs.theSys with nPoints := g.jj + 1 } } }
        let s := callSetup s
        let s := emit .unrollVectorVector s
        let s := emit .unrollVectorVectorDot s
        let s := emit .correctMassFractions s
        (.leave, s)
      else
        (.next, s)
  else
    (.next, s)

/-- Lines 238-245: the forced restart of the integrator. -/
def restartStage (s : RunState) : Control × RunState :=
  if s.nIntegrate > s.fs.options.integratorRestartInterval then
    let s := { s with nIntegrate := 0 }
    let s := callSetup s
    let s := emit .correctMassFractions s
    (.leave, s)
  else
    (.next, s)

/-- Lines 129-245: one pass through the body of the inner loop. -/
def innerIteration (w : World) (s : RunState) : Control × RunState :=
  let r := w.integrateOneStep s.stepCalls
  let s := stepStage w s
  if s.flag == CV_SUCCESS then
    let s := { s with
      nOutput := s.nOutput + 1
      nRegrid := s.nRegrid + 1
      nProfile := s.nProfile + 1
      nFlamePos := s.nFlamePos + 1
      nIntegrate := s.nIntegrate + 1 }
    let s := outputStage r s
    let s := profileStage s
    let s := flamePosStage s
    match regridStage w r s with
    | (.next, s) => restartStage s
    | (c, s) => (c, s)
  else
    (.leave, { emit .writeErrorOutput s with integratorTimestep := 0 })

/-- Lines 128-246: the inner loop `while (t < theSys.tEnd)`, run for at most `fuel`
passes; the Boolean tells whether the loop was left (`false`: fuel ran out). -/
def innerLoop (w : World) : Nat → RunState → Bool × Control × RunState
  | 0, s => (false, .next, s)
  | fuel + 1, s =>
    if s.t < s.fs.theSys.tEnd then
      match innerIteration w s with
      | (.next, s) => innerLoop w fuel s
      | (c, s) => (true, c, s)
    else
      (true, .leave, s)

/-- Lines 68-252: one pass through the body of the outer loop. -/
def outerIteration (w : World) (fuel : Nat) (s : RunState) : Bool × Control × RunState :=
  match innerLoop w fuel (prepareSegment w s) with
  | (true, .finish, s) => (true, .finish, s)
  | (true, c, s) => (true, c, emit (.printStats s.solverId) s)
  | (false, c, s) => (false, c, s)

/-- Lines 67-260: the outer loop `while (t < theSys.tEnd)` and the epilogue of `run`,
for at most `fuel` passes; the Boolean tells whether `run` returned. -/
def outerLoop (w : World) : Nat → RunState → Bool × RunState
  | 0, s => (false, s)
  | fuel + 1, s =>
    if s.t < s.fs.theSys.tEnd then
      match outerIteration w fuel s with
      | (true, .finish, s) => (true, s)
      | (true, _, s) => outerLoop w fuel s
      | (false, _, s) => (false, s)
    else
      (true, if s.fs.options.outputProfiles then emit .writeStateMatFile s else s)

/-- `flameSolver::run`, with at most `fuel` passes through each loop. -/
def run (w : World) (fuel : Nat) (fs : FlameSolver) : Bool × RunState :=
  outerLoop w fuel (runInit fs)


/-! ## Concrete inputs used by the witnesses and counterexamples -/

/-- A solver whose options enable the steady-heat-release test with a window of `3/2`,
relative tolerance `1/100`, absolute tolerance `1/10` and maximum time `1000`. -/
def steadyOptions : ConfigOptions where
  terminateForSteadyQdot := true
  terminationPeriod := 3 / 2
  terminationTolerance := 1 / 100
  terminationAbsTol := 1 / 10
  terminationMaxTime := 1000
  idaRelTol := 1 / 1000000
  idaContinuityAbsTol := 1 / 100000000
  idaMomentumAbsTol := 1 / 1000000
  idaEnergyAbsTol := 1 / 10000
  idaSpeciesAbsTol := 1 / 1000000000
  maxTimestep := 1
  outputProfiles := false
  flameRadiusControl := false
  outputTimeInterval := 1
  outputStepInterval := 1
  profileTimeInterval := 1
  profileStepInterval := 1
  rFlameUpdateTimeInterval := 1
  rFlameUpdateStepInterval := 1
  regridTimeInterval := 1
  regridStepInterval := 1
  integratorRestartInterval := 100

/-- A system at `tNow = 2` that started at `tStart = 0`. -/
def sysAtTwo : StrainedFlameSys where
  tStart := 0
  tEnd := 10
  tNow := 2
  tPrev := 2
  nPoints := 3
  nSpec := 2
  nVars := 5
  N := 15
  dampVal := []

/-- Three records at times `0, 1, 2` with a constant heat release rate: the window
`[1/2, 2]` is populated and the record at time `0` precedes it. -/
def steadyFs : FlameSolver where
  options := steadyOptions
  theSys := sysAtTwo
  timeVector := [0, 1, 2]
  timestepVector := [1, 1, 1]
  heatReleaseRate := [7, 7, 7]
  consumptionSpeed := [0, 0, 0]
  flamePosition := [0, 0, 0]

/-- Carbon atoms per molecule in the three-species mechanism `CH4, O2, N2`. -/
def methaneAirC (k : Nat) : ℚ := if k = 0 then 1 else 0

/-- Hydrogen atoms per molecule in the three-species mechanism `CH4, O2, N2`. -/
def methaneAirH (k : Nat) : ℚ := if k = 0 then 4 else 0

/-- Oxygen atoms per molecule in the three-species mechanism `CH4, O2, N2`. -/
def methaneAirO (k : Nat) : ℚ := if k = 1 then 2 else 0

/-- Mole fractions of the fuel stream: pure methane. -/
def methaneX : List ℚ := [1, 0, 0]

/-- Mole fractions of the oxidizer stream: air. -/
def airX : List ℚ := [0, 21 / 100, 79 / 100]

/-- Transport data with non-zero velocities, on up to three grid points. -/
def calmTransport : Transport where
  mu := [1, 1, 1]
  lambda := [1, 1, 1]
  cp := [1, 1, 1]
  V := [1, 1, 1]
  rhoD := fun _ _ => 1

/-- The report of a step that advances the time to `tInt` with unit step size and
ends as `outcome`. -/
def stepReportAt (outcome : StepOutcome) (tInt : ℚ) : StepReport where
  outcome := outcome
  stepSize := 1
  tInt := tInt
  tNow := tInt
  heatReleaseRate := 7
  consumptionSpeed := 0
  flamePosition := 0
  transport := calmTransport

/-- A grid evaluation that changes nothing on a grid of three points. -/
def quietGrid : GridReport where
  regridFlag := false
  adaptFlag := false
  jj := 2

/-- Options with the steady-heat-release test off, output after every step and all
other step intervals large. -/
def quietOptions : ConfigOptions :=
  { steadyOptions with
      terminateForSteadyQdot := false
      outputTimeInterval := 100
      outputStepInterval := 1
      profileTimeInterval := 100
      profileStepInterval := 50
      rFlameUpdateTimeInterval := 100
      rFlameUpdateStepInterval := 50
      regridTimeInterval := 100
      regridStepInterval := 50
      integratorRestartInterval := 50 }

/-- A solver object with an empty history, `tStart = 0` and `tEnd = 10`. -/
def freshFs : FlameSolver where
  options := quietOptions
  theSys :=
    { tStart := 0, tEnd := 10, tNow := 0, tPrev := 0, nPoints := 3, nSpec := 2,
      nVars := 5, N := 15, dampVal := [] }
  timeVector := []
  timestepVector := []
  heatReleaseRate := []
  consumptionSpeed := []
  flamePosition := []

/-- A world in which `getInitialCondition` never converges (flag `1` at every call) and
every step succeeds, advancing the time by one. -/
def divergingIcWorld : World where
  getInitialCondition := fun _ => 1
  integrateOneStep := fun n => stepReportAt (.returned CV_SUCCESS) ((n : ℚ) + 1)
  grid := fun _ => quietGrid
  uninitialized := fun _ => -1

/-- A world in which the first step succeeds and the chemistry provider raises
`CanteraError` inside the second step; every later step succeeds. -/
def chemistryErrorWorld : World where
  getInitialCondition := fun _ => 0
  integrateOneStep := fun n =>
    stepReportAt (if n = 1 then .canteraError else .returned CV_SUCCESS) ((n : ℚ) + 1)
  grid := fun _ => quietGrid
  uninitialized := fun _ => -1


theorem findLastFrom_allFalse (bs : List Bool) (i : Nat) (acc : Int)
    (h : ∀ b ∈ bs, b = false) : findLastFrom bs i acc = acc := by
  induction bs generalizing i acc with
  | nil => rfl
  | cons b bs ih =>
    have hb : b = false := h b (List.mem_cons_self _ _)
    have hbs : ∀ c ∈ bs, c = false := fun c hc => h c (List.mem_cons_of_mem _ hc)
    simp [findLastFrom, hb, ih _ _ hbs]

theorem findLastFrom_last (bs : List Bool) (i : Nat) (acc : Int) (k : Nat)
    (hk : k < bs.length) (hT : bs.getD k false = true)
    (hlast : ∀ j, k < j → j < bs.length → bs.getD j false = false) :
    findLastFrom bs i acc = ((i + k : Nat) : Int) := by
  induction bs generalizing i acc k with
  | nil => simp at hk
  | cons b bs ih =>
    cases k with
    | zero =>
      have hb : b = true := by simpa using hT
      have hbs : ∀ c ∈ bs, c = false := by
        intro c hc
        obtain ⟨n, hn, rfl⟩ := List.getElem_of_mem hc
        have := hlast (n + 1) (Nat.succ_pos _) (by simpa using hn)
        simpa [List.getD_cons_succ, hn] using this
      simp [findLastFrom, hb, findLastFrom_allFalse _ _ _ hbs]
    | succ k =>
      have hk2 : k < bs.length := by simpa using hk
      have h1 : bs.getD k false = true := by simpa using hT
      have h2 : ∀ j, k < j → j < bs.length → bs.getD j false = false := by
        intro j hj hjl
        have := hlast (j + 1) (by omega) (by simpa using hjl)
        simpa using this
      rw [findLastFrom, ih (i + 1) _ k hk2 h1 h2]
      congr 1
      omega

theorem vecLess_getD (v : List ℚ) (x : ℚ) (j : Nat) (hj : j < v.length) :
    (vecLess v x).getD j false = decide (v.getD j 0 < x) := by
  simp [vecLess, List.getD_eq_getElem?_getD, List.getElem?_map, List.getElem?_eq_getElem hj]

theorem findLast_vecLess_last (v : List ℚ) (x : ℚ) (j1 : Nat) (hj1 : j1 < v.length)
    (hlt : v.getD j1 0 < x) (hlast : ∀ j, j1 < j → j < v.length → ¬ v.getD j 0 < x) :
    findLast (vecLess v x) = (j1 : Int) := by
  have hlen : (vecLess v x).length = v.length := by simp [vecLess]
  have := findLastFrom_last (vecLess v x) 0 (-1) j1 (by rw [hlen]; exact hj1)
    (by rw [vecLess_getD v x j1 hj1]; simpa using hlt)
    (by
      intro j hj hjl
      rw [hlen] at hjl
      rw [vecLess_getD v x j hjl]
      simpa using hlast j hj hjl)
  simpa [findLast] using this

theorem exists_last_earlier (v : List ℚ) (x : ℚ) (h : ∃ a ∈ v, a < x) :
    ∃ j1, j1 < v.length ∧ v.getD j1 0 < x ∧ ∀ j, j1 < j → j < v.length → ¬ v.getD j 0 < x := by
  obtain ⟨a, ha, hax⟩ := h
  obtain ⟨n, hn, rfl⟩ := List.getElem_of_mem ha
  have hP : (fun j => j < v.length ∧ v.getD j 0 < x) n := ⟨hn, by simpa [List.getD_eq_getElem?_getD, List.getElem?_eq_getElem hn] using hax⟩
  have hle : n ≤ v.length := Nat.le_of_lt hn
  have hspec := Nat.findGreatest_spec (P := fun j => j < v.length ∧ v.getD j 0 < x) hle hP
  refine ⟨Nat.findGreatest (fun j => j < v.length ∧ v.getD j 0 < x) v.length, hspec.1, hspec.2, ?_⟩
  intro j hj hjl hlt
  exact Nat.findGreatest_is_greatest (P := fun j => j < v.length ∧ v.getD j 0 < x) hj (Nat.le_of_lt hjl) ⟨hjl, hlt⟩

theorem foldl_indexRange (f : Nat → ℚ) (a b : Nat) (hab : a ≤ b) :
    (indexRange (a : Int) (b : Int)).foldl (fun acc j => acc + f j.toNat) 0 = ∑ j in Finset.Icc a b, f j := by
  have key : ∀ n : Nat, ((List.range n).map (fun i : Nat => (a : Int) + (i : Int))).foldl
      (fun acc j => acc + f j.toNat) 0 = ∑ i in Finset.range n, f (a + i) := by
    intro n
    induction n with
    | zero => simp
    | succ n ih =>
      rw [List.range_succ, List.map_append, List.foldl_append, ih, Finset.sum_range_succ]
      simp
      congr 1
  have hn : ((b : Int) - (a : Int) + 1).toNat = b + 1 - a := by omega
  rw [indexRange, hn, key]
  rw [← Nat.Ico_succ_right, Finset.sum_Ico_eq_sum_range]

/-- Value of `checkTerminationCondition` once `j1`, the last index whose recorded time
is earlier than `tNow - terminationPeriod`, is known: the three tests of the source on
the mean and the mean absolute deviation of `heatReleaseRate[j1..j2]`. -/
theorem checkTermination_eval (fs : FlameSolver) (j1 : Nat)
    (hen : fs.options.terminateForSteadyQdot = true)
    (hj1 : j1 < fs.timeVector.length)
    (hlt : fs.timeVector.getD j1 0 < fs.theSys.tNow - fs.options.terminationPeriod)
    (hlast : ∀ j, j1 < j → j < fs.timeVector.length →
      ¬ fs.timeVector.getD j 0 < fs.theSys.tNow - fs.options.terminationPeriod)
    (qMean hrrError : ℚ)
    (hq : qMean = (∑ j in Finset.Icc j1 (fs.timeVector.length - 1), fs.heatReleaseRate.getD j 0)
      / ((fs.timeVector.length - 1 - j1 + 1 : Nat) : ℚ))
    (he : hrrError = (∑ j in Finset.Icc j1 (fs.timeVector.length - 1),
      |fs.heatReleaseRate.getD j 0 - qMean|) / ((fs.timeVector.length - 1 - j1 + 1 : Nat) : ℚ)) :
    checkTerminationCondition fs =
      (decide (qMean ≠ 0 ∧ hrrError / |qMean| < fs.options.terminationTolerance)
        || decide (hrrError < fs.options.terminationAbsTol)
        || decide (fs.theSys.tNow - fs.theSys.tStart > fs.options.terminationMaxTime)) := by
  have hj2 : ((fs.timeVector.length : Int) - 1) = ((fs.timeVector.length - 1 : Nat) : Int) := by
    omega
  have hle : j1 ≤ fs.timeVector.length - 1 := by omega
  have hcnt : (((fs.timeVector.length - 1 : Nat) : Int) - (j1 : Int) + 1)
      = ((fs.timeVector.length - 1 - j1 + 1 : Nat) : Int) := by omega
  have hmean : mean fs.heatReleaseRate (j1 : Int) ((fs.timeVector.length - 1 : Nat) : Int)
      = qMean := by
    rw [hq, mean, hcnt]
    have := foldl_indexRange (fun j => fs.heatReleaseRate.getD j 0) j1
      (fs.timeVector.length - 1) hle
    simp only [at_]
    rw [this]
    norm_cast
  have herr : hrrErrorSum fs.heatReleaseRate qMean (j1 : Int)
      ((fs.timeVector.length - 1 : Nat) : Int) / ((((fs.timeVector.length - 1 : Nat) : Int)
        - (j1 : Int) + 1 : Int) : ℚ) = hrrError := by
    rw [he, hrrErrorSum, hcnt]
    have := foldl_indexRange (fun j => |fs.heatReleaseRate.getD j 0 - qMean|) j1
      (fs.timeVector.length - 1) hle
    simp only [at_]
    rw [this]
    norm_cast
  have hne : ((j1 : Int) == -1) = false := by
    have : (j1 : Int) ≠ -1 := by omega
    simp [this]
  unfold checkTerminationCondition
  simp only [hen, if_true, findLast_vecLess_last _ _ j1 hj1 hlt hlast, hne, hj2, hmean, herr]
  by_cases h0 : qMean = 0
  · simp [quotientBelow, fdiv, h0]
  · have h0' : |qMean| ≠ 0 := by simpa using h0
    simp [quotientBelow, fdiv, h0, h0']
    by_cases h1 : hrrError / |qMean| < fs.options.terminationTolerance <;>
      by_cases h2 : hrrError < fs.options.terminationAbsTol <;>
      by_cases h3 : fs.options.terminationMaxTime < fs.theSys.tNow - fs.theSys.tStart <;>
      simp [h1, h2, h3]


/-! ## Lemmas on the tolerance loop -/

theorem abstolWritesAt_indices (o : ConfigOptions) (nSpec j : Nat) :
    (abstolWritesAt o (3 + nSpec) nSpec j).map Prod.fst
      = List.range' ((3 + nSpec) * j) (3 + nSpec) := by
  have h3 : ∀ a : Nat, [a, a + 1, a + 2] = List.range' a 3 := by
    intro a
    simp [List.range']
  have hk : ∀ a : Nat, (List.range nSpec).map (fun k => a + k + 3) = List.range' (a + 3) nSpec := by
    intro a
    apply List.ext_getElem
    · simp
    · intro n h1 h2
      simp
      omega
  simp only [abstolWritesAt, List.map_append, List.map_cons, List.map_nil, List.map_map]
  rw [h3]
  have : (Prod.fst ∘ fun k => ((3 + nSpec) * j + k + 3, o.idaSpeciesAbsTol))
      = fun k => (3 + nSpec) * j + k + 3 := rfl
  rw [this, hk, List.range'_append_1, Nat.add_comm nSpec 3]

theorem abstolWrites_indices (o : ConfigOptions) (nPoints nSpec : Nat) :
    (abstolWrites o (3 + nSpec) nPoints nSpec).map Prod.fst
      = List.range ((3 + nSpec) * nPoints) := by
  induction nPoints with
  | zero => simp [abstolWrites]
  | succ n ih =>
    have hstep : abstolWrites o (3 + nSpec) (n + 1) nSpec
        = abstolWrites o (3 + nSpec) n nSpec ++ abstolWritesAt o (3 + nSpec) nSpec n := by
      simp [abstolWrites, List.range_succ, List.flatMap_append]
    rw [hstep, List.map_append, ih, abstolWritesAt_indices, List.range_eq_range',
      List.range_eq_range']
    have := List.range'_append_1 0 ((3 + nSpec) * n) (3 + nSpec)
    simp only [Nat.zero_add] at this
    rw [this, Nat.mul_succ, Nat.add_comm (3 + nSpec)]

/-- A list of stores with pairwise distinct indices leaves, at a stored index in range,
the value stored there. -/
theorem foldl_set_getD (ws : List (Nat × ℚ)) (v : List ℚ) (i : Nat) (x : ℚ)
    (hnd : (ws.map Prod.fst).Nodup) (hmem : (i, x) ∈ ws) (hi : i < v.length) :
    (ws.foldl (fun v w => v.set w.1 w.2) v).getD i 0 = x := by
  have hkeep : ∀ (ws : List (Nat × ℚ)) (v : List ℚ), i ∉ ws.map Prod.fst →
      (ws.foldl (fun v w => v.set w.1 w.2) v).getD i 0 = v.getD i 0 := by
    intro ws
    induction ws with
    | nil => intro v _; rfl
    | cons w ws ih =>
      intro v hni
      simp only [List.map_cons, List.mem_cons, not_or] at hni
      rw [List.foldl_cons, ih _ hni.2]
      simp [List.getD_eq_getElem?_getD, List.getElem?_set, Ne.symm hni.1]
  induction ws generalizing v with
  | nil => simp at hmem
  | cons w ws ih =>
    simp only [List.map_cons, List.nodup_cons] at hnd
    rw [List.foldl_cons]
    rcases List.mem_cons.mp hmem with h | h
    · subst h
      rw [hkeep _ _ hnd.1]
      simp [List.getD_eq_getElem?_getD, List.getElem?_set, hi]
    · exact ih _ hnd.2 h (by simpa using hi)


/-! ## Lemmas on the damping loop -/

theorem foldl_add_range {K : Type} [Field K] (g : Nat → K) (n : Nat) :
    ((List.range n).map g).foldl (fun acc x => acc + x) 0 = ∑ k in Finset.range n, g k := by
  induction n with
  | zero => simp
  | succ n ih =>
    rw [List.range_succ, List.map_append, List.foldl_append, ih, Finset.sum_range_succ]
    simp

theorem list_sum_range {K : Type} [Field K] (g : Nat → K) (n : Nat) :
    ((List.range n).map g).sum = ∑ k in Finset.range n, g k := by
  induction n with
  | zero => simp
  | succ n ih =>
    rw [List.range_succ, List.map_append, List.sum_append, ih, Finset.sum_range_succ]
    simp

theorem atomMoles_eq {K : Type} [Field K] (aC aH aO : Nat → K) (Xf Xo : List K) (n : Nat) :
    atomMoles aC aH aO Xf Xo n =
      { Cf := ∑ k in Finset.range n, aC k * Xf.getD k 0
        Hf := ∑ k in Finset.range n, aH k * Xf.getD k 0
        Of := ∑ k in Finset.range n, aO k * Xf.getD k 0
        Co := ∑ k in Finset.range n, aC k * Xo.getD k 0
        Ho := ∑ k in Finset.range n, aH k * Xo.getD k 0
        Oo := ∑ k in Finset.range n, aO k * Xo.getD k 0 } := by
  induction n with
  | zero => simp [atomMoles]
  | succ n ih =>
    unfold atomMoles at ih ⊢
    rw [List.range_succ, List.foldl_append, ih]
    simp [Finset.sum_range_succ]

theorem mixVectors_eq {K : Type} [Field K] (Xf Xo : List K) (a b : K) (n : Nat)
    (hXf : Xf.length = n) (hXo : Xo.length = n) :
    mixVectors Xf a b Xo
      = (List.range n).map (fun k => Xf.getD k 0 * a + b * Xo.getD k 0) := by
  apply List.ext_getElem
  · simp [mixVectors, hXf, hXo]
  · intro i h1 h2
    have hi : i < n := by simpa using h2
    simp [mixVectors, List.getD_eq_getElem?_getD, List.getElem?_eq_getElem, hXf, hXo, hi]

theorem mapM_fdiv {K : Type} [Field K] [DecidableEq K] (l : List K) (s : K) (hs : s ≠ 0) :
    l.mapM (fun x => fdiv x s) = some (l.map (fun x => x / s)) := by
  induction l with
  | nil => rfl
  | cons x l ih =>
    rw [List.mapM_cons, ih]
    simp [fdiv, hs]


/-! ## Lemmas on the stages of the inner loop -/

theorem stepStage_fields (w : World) (s : RunState) :
    (stepStage w s).t = (w.integrateOneStep s.stepCalls).tInt ∧
    (stepStage w s).dt = (w.integrateOneStep s.stepCalls).stepSize ∧
    (stepStage w s).nOutput = s.nOutput ∧ (stepStage w s).tOutput = s.tOutput ∧
    (stepStage w s).nProfile = s.nProfile ∧ (stepStage w s).tProfile = s.tProfile ∧
    (stepStage w s).nFlamePos = s.nFlamePos ∧ (stepStage w s).tFlamePos = s.tFlamePos ∧
    (stepStage w s).nRegrid = s.nRegrid ∧ (stepStage w s).tRegrid = s.tRegrid ∧
    (stepStage w s).nIntegrate = s.nIntegrate ∧
    (stepStage w s).fs.options = s.fs.options ∧
    (stepStage w s).fs.timeVector = s.fs.timeVector ∧
    (stepStage w s).fs.heatReleaseRate = s.fs.heatReleaseRate ∧
    (stepStage w s).solverId = s.solverId ∧ (stepStage w s).solvers = s.solvers ∧
    (stepStage w s).icCalls = s.icCalls := by
  unfold stepStage
  cases h : (w.integrateOneStep s.stepCalls).outcome <;> simp [emit, h]

theorem stepStage_flag (w : World) (s : RunState) :
    (stepStage w s).flag = match (w.integrateOneStep s.stepCalls).outcome with
      | .returned flag => flag
      | .canteraError => s.flag := by
  unfold stepStage
  cases h : (w.integrateOneStep s.stepCalls).outcome <;> simp [emit, h]

theorem outputStage_fields (r : StepReport) (s : RunState) :
    (outputStage r s).t = s.t ∧
    (outputStage r s).nProfile = s.nProfile ∧ (outputStage r s).tProfile = s.tProfile ∧
    (outputStage r s).nFlamePos = s.nFlamePos ∧ (outputStage r s).tFlamePos = s.tFlamePos ∧
    (outputStage r s).nRegrid = s.nRegrid ∧ (outputStage r s).tRegrid = s.tRegrid ∧
    (outputStage r s).nIntegrate = s.nIntegrate ∧
    (outputStage r s).fs.options = s.fs.options ∧
    (outputStage r s).solverId = s.solverId ∧ (outputStage r s).solvers = s.solvers ∧
    (outputStage r s).icCalls = s.icCalls ∧ (outputStage r s).log = s.log := by
  unfold outputStage
  split <;> simp

theorem profileStage_fields (s : RunState) :
    (profileStage s).t = s.t ∧
    (profileStage s).nOutput = s.nOutput ∧ (profileStage s).tOutput = s.tOutput ∧
    (profileStage s).nFlamePos = s.nFlamePos ∧ (profileStage s).tFlamePos = s.tFlamePos ∧
    (profileStage s).nRegrid = s.nRegrid ∧ (profileStage s).tRegrid = s.tRegrid ∧
    (profileStage s).nIntegrate = s.nIntegrate ∧
    (profileStage s).fs = s.fs ∧
    (profileStage s).solverId = s.solverId ∧ (profileStage s).solvers = s.solvers ∧
    (profileStage s).icCalls = s.icCalls := by
  unfold profileStage
  split
  · split <;> simp [emit]
  · simp

theorem flamePosStage_fields (s : RunState) :
    (flamePosStage s).t = s.t ∧
    (flamePosStage s).nOutput = s.nOutput ∧ (flamePosStage s).tOutput = s.tOutput ∧
    (flamePosStage s).nProfile = s.nProfile ∧ (flamePosStage s).tProfile = s.tProfile ∧
    (flamePosStage s).nRegrid = s.nRegrid ∧ (flamePosStage s).tRegrid = s.tRegrid ∧
    (flamePosStage s).nIntegrate = s.nIntegrate ∧
    (flamePosStage s).fs = s.fs ∧
    (flamePosStage s).solverId = s.solverId ∧ (flamePosStage s).solvers = s.solvers ∧
    (flamePosStage s).icCalls = s.icCalls := by
  unfold flamePosStage
  split <;> simp [emit]

theorem regridStage_fields (w : World) (r : StepReport) (s : RunState) :
    (regridStage w r s).2.t = s.t ∧
    (regridStage w r s).2.nOutput = s.nOutput ∧ (regridStage w r s).2.tOutput = s.tOutput ∧
    (regridStage w r s).2.nProfile = s.nProfile ∧ (regridStage w r s).2.tProfile = s.tProfile ∧
    (regridStage w r s).2.nFlamePos = s.nFlamePos ∧
    (regridStage w r s).2.tFlamePos = s.tFlamePos ∧
    (regridStage w r s).2.fs.options = s.fs.options ∧
    (regridStage w r s).2.fs.timeVector = s.fs.timeVector ∧
    (regridStage w r s).2.solverId = s.solverId ∧ (regridStage w r s).2.solvers = s.solvers ∧
    (regridStage w r s).2.icCalls = s.icCalls := by
  simp only [regridStage]
  split_ifs <;> simp [emit, callSetup]

theorem restartStage_fields (s : RunState) :
    (restartStage s).2.t = s.t ∧
    (restartStage s).2.nOutput = s.nOutput ∧ (restartStage s).2.tOutput = s.tOutput ∧
    (restartStage s).2.nProfile = s.nProfile ∧ (restartStage s).2.tProfile = s.tProfile ∧
    (restartStage s).2.nFlamePos = s.nFlamePos ∧ (restartStage s).2.tFlamePos = s.tFlamePos ∧
    (restartStage s).2.nRegrid = s.nRegrid ∧ (restartStage s).2.tRegrid = s.tRegrid ∧
    (restartStage s).2.fs.options = s.fs.options ∧
    (restartStage s).2.fs.timeVector = s.fs.timeVector ∧
    (restartStage s).2.solverId = s.solverId ∧ (restartStage s).2.solvers = s.solvers ∧
    (restartStage s).2.icCalls = s.icCalls := by
  unfold restartStage
  split <;> simp [emit, callSetup]


/-- The state in which the four triggers are evaluated after a step whose flag is
`CV_SUCCESS`: the five step counters have been incremented. -/
theorem innerIteration_success (w : World) (s : RunState)
    (hflag : (stepStage w s).flag = CV_SUCCESS) :
    ∃ s1 : RunState,
      s1.t = (stepStage w s).t ∧ s1.dt = (stepStage w s).dt ∧
      s1.fs = (stepStage w s).fs ∧
      s1.nOutput = s.nOutput + 1 ∧ s1.nRegrid = s.nRegrid + 1 ∧
      s1.nProfile = s.nProfile + 1 ∧ s1.nFlamePos = s.nFlamePos + 1 ∧
      s1.nIntegrate = s.nIntegrate + 1 ∧
      s1.tOutput = s.tOutput ∧ s1.tRegrid = s.tRegrid ∧
      s1.tProfile = s.tProfile ∧ s1.tFlamePos = s.tFlamePos ∧
      s1.solverId = s.solverId ∧ s1.solvers = s.solvers ∧ s1.icCalls = s.icCalls ∧
      s1.log = (stepStage w s).log ∧ s1.gridCalls = s.gridCalls ∧
      (innerIteration w s =
          regridStage w (w.integrateOneStep s.stepCalls)
            (flamePosStage (profileStage (outputStage (w.integrateOneStep s.stepCalls) s1))) ∨
        ((regridStage w (w.integrateOneStep s.stepCalls)
            (flamePosStage (profileStage
              (outputStage (w.integrateOneStep s.stepCalls) s1)))).1 = .next ∧
          innerIteration w s =
            restartStage (regridStage w (w.integrateOneStep s.stepCalls)
              (flamePosStage (profileStage
                (outputStage (w.integrateOneStep s.stepCalls) s1)))).2)) := by
  obtain ⟨h1, h2, h3, h4, h5, h6, h7, h8, h9, h10, h11, -, -, -, h15, h16, h17⟩ :=
    stepStage_fields w s
  have hg : (stepStage w s).gridCalls = s.gridCalls := by
    unfold stepStage
    cases h : (w.integrateOneStep s.stepCalls).outcome <;> simp [emit, h]
  refine ⟨{ stepStage w s with
      nOutput := (stepStage w s).nOutput + 1
      nRegrid := (stepStage w s).nRegrid + 1
      nProfile := (stepStage w s).nProfile + 1
      nFlamePos := (stepStage w s).nFlamePos + 1
      nIntegrate := (stepStage w s).nIntegrate + 1 }, rfl, rfl, rfl, ?_, ?_, ?_, ?_, ?_,
      h4, h10, h6, h8, h15, h16, h17, rfl, hg, ?_⟩
  · simp [h3]
  · simp [h9]
  · simp [h5]
  · simp [h7]
  · simp [h11]
  · have hb : ((stepStage w s).flag == CV_SUCCESS) = true := by simp [hflag]
    simp only [innerIteration, hb, if_true]
    generalize regridStage w (w.integrateOneStep s.stepCalls) _ = x
    rcases x with ⟨c, s2⟩
    cases c
    · right; exact ⟨rfl, rfl⟩
    · left; rfl
    · left; rfl

theorem outputStage_trigger (r : StepReport) (s : RunState) :
    ((s.t > s.tOutput ∨ s.nOutput ≥ s.fs.options.outputStepInterval) →
      (outputStage r s).nOutput = 0 ∧
      (outputStage r s).tOutput = s.t + s.fs.options.outputTimeInterval ∧
      (outputStage r s).fs.timeVector = s.fs.timeVector ++ [s.t] ∧
      (outputStage r s).fs.heatReleaseRate = s.fs.heatReleaseRate ++ [r.heatReleaseRate]) ∧
    (¬ (s.t > s.tOutput ∨ s.nOutput ≥ s.fs.options.outputStepInterval) →
      outputStage r s = s) := by
  constructor
  · intro h
    simp [outputStage, h]
  · intro h
    simp [outputStage, h]

theorem profileStage_trigger (s : RunState) :
    ((s.t > s.tProfile ∨ s.nProfile ≥ s.fs.options.profileStepInterval) →
      (profileStage s).nProfile = 0 ∧
      (profileStage s).tProfile = s.t + s.fs.options.profileTimeInterval) ∧
    (¬ (s.t > s.tProfile ∨ s.nProfile ≥ s.fs.options.profileStepInterval) →
      profileStage s = s) := by
  constructor
  · intro h
    simp only [profileStage, h, if_true]
    split <;> simp [emit]
  · intro h
    simp [profileStage, h]

theorem flamePosStage_trigger (s : RunState) :
    ((s.fs.options.flameRadiusControl = true ∧
        (s.t > s.tFlamePos ∨ s.nFlamePos > s.fs.options.rFlameUpdateStepInterval)) →
      (flamePosStage s).nFlamePos = 0 ∧
      (flamePosStage s).tFlamePos = s.t + s.fs.options.rFlameUpdateTimeInterval) ∧
    (¬ (s.fs.options.flameRadiusControl = true ∧
        (s.t > s.tFlamePos ∨ s.nFlamePos > s.fs.options.rFlameUpdateStepInterval)) →
      flamePosStage s = s) := by
  constructor
  · intro h
    simp [flamePosStage, h, emit]
  · intro h
    simp only [flamePosStage, h, if_false]

theorem regridStage_trigger (w : World) (r : StepReport) (s : RunState) :
    ((s.t > s.tRegrid ∨ s.nRegrid ≥ s.fs.options.regridStepInterval) →
      (regridStage w r s).2.nRegrid = 0 ∧
      (regridStage w r s).2.tRegrid = s.t + s.fs.options.regridTimeInterval) ∧
    (¬ (s.t > s.tRegrid ∨ s.nRegrid ≥ s.fs.options.regridStepInterval) →
      regridStage w r s = (.next, s)) := by
  constructor
  · intro h
    simp only [regridStage, h, if_true]
    split_ifs <;> simp [emit, callSetup]
  · intro h
    simp only [regridStage, h, if_false]


/-! ## Claims on `checkTerminationCondition` -/

/-- C1: with `options.terminateForSteadyQdot` enabled and at least one recorded time
earlier than `tNow - terminationPeriod`, there is a last such index `j1`, and with
`j2` the last index of `timeVector`, `qMean` the mean of `heatReleaseRate[j1..j2]` and
`hrrError` the mean of `|heatReleaseRate[j] - qMean|` over `j1..j2`,
`checkTerminationCondition` returns true exactly when the relative deviation
`hrrError / |qMean|` is below `terminationTolerance` (a quotient by a zero mean is an
infinity or a NaN and is never below), or `hrrError < terminationAbsTol`, or
`tNow - tStart > terminationMaxTime`; a deviation at or above both tolerances with the
elapsed time not above `terminationMaxTime` gives false. -/
theorem checkTermination_iff_steady (fs : FlameSolver)
    (hen : fs.options.terminateForSteadyQdot = true)
    (hex : ∃ a ∈ fs.timeVector, a < fs.theSys.tNow - fs.options.terminationPeriod) :
    ∃ (j1 : Nat) (qMean hrrError : ℚ), j1 < fs.timeVector.length ∧
      fs.timeVector.getD j1 0 < fs.theSys.tNow - fs.options.terminationPeriod ∧
      (∀ j, j1 < j → j < fs.timeVector.length →
        ¬ fs.timeVector.getD j 0 < fs.theSys.tNow - fs.options.terminationPeriod) ∧
      qMean = (∑ j in Finset.Icc j1 (fs.timeVector.length - 1), fs.heatReleaseRate.getD j 0)
          / ((fs.timeVector.length - 1 - j1 + 1 : Nat) : ℚ) ∧
      hrrError = (∑ j in Finset.Icc j1 (fs.timeVector.length - 1),
          |fs.heatReleaseRate.getD j 0 - qMean|)
          / ((fs.timeVector.length - 1 - j1 + 1 : Nat) : ℚ) ∧
      (checkTerminationCondition fs = true ↔
          ((qMean ≠ 0 ∧ hrrError / |qMean| < fs.options.terminationTolerance)
            ∨ hrrError < fs.options.terminationAbsTol
            ∨ fs.theSys.tNow - fs.theSys.tStart > fs.options.terminationMaxTime)) ∧
      (¬ (qMean ≠ 0 ∧ hrrError / |qMean| < fs.options.terminationTolerance) →
          fs.options.terminationAbsTol ≤ hrrError →
          fs.theSys.tNow - fs.theSys.tStart ≤ fs.options.terminationMaxTime →
          checkTerminationCondition fs = false) := by
  obtain ⟨j1, hj1, hlt, hlast⟩ := exists_last_earlier _ _ hex
  refine ⟨j1, _, _, hj1, hlt, hlast, rfl, rfl, ?_⟩
  have hv := checkTermination_eval fs j1 hen hj1 hlt hlast _ _ rfl rfl
  constructor
  · rw [hv]
    simp only [Bool.or_eq_true, decide_eq_true_eq, or_assoc]
  · intro h1 h2 h3
    rw [hv]
    simp only [Bool.or_eq_false_iff, decide_eq_false_iff_not, not_lt]
    exact ⟨⟨h1, h2⟩, h3⟩

/-- Witness of C1 on `steadyFs` (records at times `0, 1, 2`, window start `1/2`). -/
theorem checkTermination_iff_steady_witness :
    (steadyFs.options.terminateForSteadyQdot = true ∧
      ∃ a ∈ steadyFs.timeVector, a < steadyFs.theSys.tNow - steadyFs.options.terminationPeriod) ∧
    ∃ (j1 : Nat) (qMean hrrError : ℚ), j1 < steadyFs.timeVector.length ∧
      steadyFs.timeVector.getD j1 0 < steadyFs.theSys.tNow - steadyFs.options.terminationPeriod ∧
      (∀ j, j1 < j → j < steadyFs.timeVector.length →
        ¬ steadyFs.timeVector.getD j 0
          < steadyFs.theSys.tNow - steadyFs.options.terminationPeriod) ∧
      qMean = (∑ j in Finset.Icc j1 (steadyFs.timeVector.length - 1),
          steadyFs.heatReleaseRate.getD j 0)
          / ((steadyFs.timeVector.length - 1 - j1 + 1 : Nat) : ℚ) ∧
      hrrError = (∑ j in Finset.Icc j1 (steadyFs.timeVector.length - 1),
          |steadyFs.heatReleaseRate.getD j 0 - qMean|)
          / ((steadyFs.timeVector.length - 1 - j1 + 1 : Nat) : ℚ) ∧
      (checkTerminationCondition steadyFs = true ↔
          ((qMean ≠ 0 ∧ hrrError / |qMean| < steadyFs.options.terminationTolerance)
            ∨ hrrError < steadyFs.options.terminationAbsTol
            ∨ steadyFs.theSys.tNow - steadyFs.theSys.tStart
                > steadyFs.options.terminationMaxTime)) ∧
      (¬ (qMean ≠ 0 ∧ hrrError / |qMean| < steadyFs.options.terminationTolerance) →
          steadyFs.options.terminationAbsTol ≤ hrrError →
          steadyFs.theSys.tNow - steadyFs.theSys.tStart
            ≤ steadyFs.options.terminationMaxTime →
          checkTerminationCondition steadyFs = false) :=
  ⟨⟨rfl, 0, by simp [steadyFs], by norm_num [steadyFs, sysAtTwo, steadyOptions]⟩,
    checkTermination_iff_steady steadyFs rfl
      ⟨0, by simp [steadyFs], by norm_num [steadyFs, sysAtTwo, steadyOptions]⟩⟩

/-- C4: after the tolerance loop of `run`, with `nVars = 3 + nSpec` and an `abstol`
vector of size `N = nVars * nPoints`, every index `i < N` has been stored exactly once
and no index outside `[0, N)` has been stored; `abstol[i]` is `idaContinuityAbsTol`
when `i mod nVars = 0`, `idaMomentumAbsTol` when `i mod nVars = 1`, `idaEnergyAbsTol`
when `i mod nVars = 2` and `idaSpeciesAbsTol` otherwise. -/
theorem abstol_layout (o : ConfigOptions) (nVars nPoints nSpec : Nat) (abstol : List ℚ)
    (hV : nVars = 3 + nSpec) (hlen : abstol.length = nVars * nPoints) :
    (∀ i, ((abstolWrites o nVars nPoints nSpec).map Prod.fst).count i
        = if i < nVars * nPoints then 1 else 0) ∧
    (assignAbstol o nVars nPoints nSpec abstol).length = nVars * nPoints ∧
    ∀ i, i < nVars * nPoints →
      (assignAbstol o nVars nPoints nSpec abstol).getD i 0 =
        if i % nVars = 0 then o.idaContinuityAbsTol
        else if i % nVars = 1 then o.idaMomentumAbsTol
        else if i % nVars = 2 then o.idaEnergyAbsTol
        else o.idaSpeciesAbsTol := by
  subst hV
  have hidx := abstolWrites_indices o nPoints nSpec
  refine ⟨?_, ?_, ?_⟩
  · intro i
    rw [hidx]
    by_cases hi : i < (3 + nSpec) * nPoints
    · rw [if_pos hi]
      exact List.count_eq_one_of_mem (List.nodup_range _) (List.mem_range.mpr hi)
    · rw [if_neg hi]
      exact List.count_eq_zero_of_not_mem (fun h => hi (List.mem_range.mp h))
  · have hl : ∀ (ws : List (Nat × ℚ)) (v : List ℚ),
        (ws.foldl (fun v w => v.set w.1 w.2) v).length = v.length := by
      intro ws
      induction ws with
      | nil => intro v; rfl
      | cons w ws ih => intro v; rw [List.foldl_cons, ih]; simp
    rw [assignAbstol, hl, hlen]
  · intro i hi
    have hnd : ((abstolWrites o (3 + nSpec) nPoints nSpec).map Prod.fst).Nodup := by
      rw [hidx]; exact List.nodup_range _
    apply foldl_set_getD _ _ _ _ hnd _ (by rw [hlen]; exact hi)
    have hpos : 0 < 3 + nSpec := by omega
    have hj : i / (3 + nSpec) < nPoints := Nat.div_lt_of_lt_mul hi
    have hdm : (3 + nSpec) * (i / (3 + nSpec)) + i % (3 + nSpec) = i := Nat.div_add_mod _ _
    have hr : i % (3 + nSpec) < 3 + nSpec := Nat.mod_lt _ hpos
    simp only [abstolWrites, List.mem_flatMap, List.mem_range]
    refine ⟨i / (3 + nSpec), hj, ?_⟩
    simp only [abstolWritesAt, List.mem_append, List.mem_cons, List.mem_map, List.mem_range,
      Prod.mk.injEq, List.mem_nil_iff, or_false]
    by_cases h0 : i % (3 + nSpec) = 0
    · left; left
      simp only [h0, if_true, and_true]
      omega
    by_cases h1 : i % (3 + nSpec) = 1
    · left; right; left
      simp only [h1, if_true, and_true]
      norm_num
      omega
    by_cases h2 : i % (3 + nSpec) = 2
    · left; right; right
      simp only [h2, if_true, and_true]
      norm_num
      omega
    · right
      refine ⟨i % (3 + nSpec) - 3, by omega, by omega, ?_⟩
      simp [h0, h1, h2]

/-- Witness of C4: two grid points and two species (`nVars = 5`, `N = 10`). -/
theorem abstol_layout_witness :
    (5 = 3 + 2 ∧ (List.replicate 10 (0 : ℚ)).length = 5 * 2) ∧
    (∀ i, ((abstolWrites steadyOptions 5 2 2).map Prod.fst).count i
        = if i < 5 * 2 then 1 else 0) ∧
    (assignAbstol steadyOptions 5 2 2 (List.replicate 10 0)).length = 5 * 2 ∧
    ∀ i, i < 5 * 2 →
      (assignAbstol steadyOptions 5 2 2 (List.replicate 10 0)).getD i 0 =
        if i % 5 = 0 then steadyOptions.idaContinuityAbsTol
        else if i % 5 = 1 then steadyOptions.idaMomentumAbsTol
        else if i % 5 = 2 then steadyOptions.idaEnergyAbsTol
        else steadyOptions.idaSpeciesAbsTol :=
  ⟨⟨rfl, by simp⟩, abstol_layout steadyOptions 5 2 2 (List.replicate 10 0) rfl (by simp)⟩


/-! ## Claim on the damping loop -/

/-- C10: in exact arithmetic over any field (the reals in particular), for mole-fraction
vectors `Xf`, `Xo` of length `nSpec` and atom counts `aC`, `aH`, `aO`, when the
oxidizer's oxygen balance `Oo - 2*Co - Ho/2` is non-zero and the unnormalised mixture
`Xf*equivalenceRatio + stoichAirFuelRatio*Xo` has a non-zero sum `S`,
`calculateReactantMixture` produces a vector `reactants` that sums to 1 and whose oxygen
balance `Σ_k (aO_k - 2*aC_k - aH_k/2) * reactants_k` equals
`(equivalenceRatio - 1) * (Of - 2*Cf - Hf/2) / S`, hence is zero when
`equivalenceRatio = 1`. -/
theorem reactantMixture_balance {K : Type} [Field K] [DecidableEq K] (aC aH aO : Nat → K)
    (Xf Xo : List K) (nSpec : Nat) (equivalenceRatio : K)
    (Cf Hf Of Co Ho Oo stoichAirFuelRatio S : K)
    (hXf : Xf.length = nSpec) (hXo : Xo.length = nSpec)
    (hCf : Cf = ∑ k in Finset.range nSpec, aC k * Xf.getD k 0)
    (hHf : Hf = ∑ k in Finset.range nSpec, aH k * Xf.getD k 0)
    (hOf : Of = ∑ k in Finset.range nSpec, aO k * Xf.getD k 0)
    (hCo : Co = ∑ k in Finset.range nSpec, aC k * Xo.getD k 0)
    (hHo : Ho = ∑ k in Finset.range nSpec, aH k * Xo.getD k 0)
    (hOo : Oo = ∑ k in Finset.range nSpec, aO k * Xo.getD k 0)
    (hstoich : stoichAirFuelRatio = -(Of - 2 * Cf - Hf / 2) / (Oo - 2 * Co - Ho / 2))
    (hSdef : S = ∑ k in Finset.range nSpec,
      (Xf.getD k 0 * equivalenceRatio + stoichAirFuelRatio * Xo.getD k 0))
    (hOx : Oo - 2 * Co - Ho / 2 ≠ 0) (hS : S ≠ 0) :
    ∃ reactants : List K,
      calculateReactantMixture aC aH aO Xf Xo nSpec equivalenceRatio = some reactants ∧
      reactants.length = nSpec ∧
      reactants.sum = 1 ∧
      ∑ k in Finset.range nSpec, (aO k - 2 * aC k - aH k / 2) * reactants.getD k 0
        = (equivalenceRatio - 1) * (Of - 2 * Cf - Hf / 2) / S ∧
      (equivalenceRatio = 1 →
        ∑ k in Finset.range nSpec, (aO k - 2 * aC k - aH k / 2) * reactants.getD k 0 = 0) := by
  have hmix := mixVectors_eq Xf Xo equivalenceRatio stoichAirFuelRatio nSpec hXf hXo
  have hsum : sum (mixVectors Xf equivalenceRatio stoichAirFuelRatio Xo) = S := by
    rw [hmix, sum, foldl_add_range, hSdef]
  have hcalc : calculateReactantMixture aC aH aO Xf Xo nSpec equivalenceRatio
      = some ((List.range nSpec).map
          (fun k => (Xf.getD k 0 * equivalenceRatio + stoichAirFuelRatio * Xo.getD k 0) / S)) := by
    have e1 : fdiv (-(Of - 2 * Cf - Hf / 2)) (Oo - 2 * Co - Ho / 2)
        = some stoichAirFuelRatio := by rw [hstoich]; exact if_neg hOx
    unfold calculateReactantMixture
    rw [atomMoles_eq]
    simp only [Option.bind_eq_bind, ← hCf, ← hHf, ← hOf, ← hCo, ← hHo, ← hOo]
    rw [e1]
    simp only [Option.some_bind, hsum]
    rw [mapM_fdiv _ _ hS, hmix, List.map_map]
    rfl
  have hget : ∀ k, k ∈ Finset.range nSpec →
      ((List.range nSpec).map (fun k =>
        (Xf.getD k 0 * equivalenceRatio + stoichAirFuelRatio * Xo.getD k 0) / S)).getD k 0
      = (Xf.getD k 0 * equivalenceRatio + stoichAirFuelRatio * Xo.getD k 0) / S := by
    intro k hk
    have hk' : k < nSpec := Finset.mem_range.mp hk
    simp [List.getD_eq_getElem?_getD, List.getElem?_map, hk']
  have hbal : ∑ k in Finset.range nSpec, (aO k - 2 * aC k - aH k / 2)
        * ((List.range nSpec).map (fun k =>
          (Xf.getD k 0 * equivalenceRatio + stoichAirFuelRatio * Xo.getD k 0) / S)).getD k 0
      = (equivalenceRatio - 1) * (Of - 2 * Cf - Hf / 2) / S := by
    rw [Finset.sum_congr rfl (fun k hk => by rw [hget k hk])]
    have hsplit : ∀ k, (aO k - 2 * aC k - aH k / 2)
          * ((Xf.getD k 0 * equivalenceRatio + stoichAirFuelRatio * Xo.getD k 0) / S)
        = (equivalenceRatio * (aO k * Xf.getD k 0 - 2 * (aC k * Xf.getD k 0)
              - aH k * Xf.getD k 0 / 2)
            + stoichAirFuelRatio * (aO k * Xo.getD k 0 - 2 * (aC k * Xo.getD k 0)
              - aH k * Xo.getD k 0 / 2)) / S := by
      intro k; ring
    simp only [hsplit]
    rw [← Finset.sum_div, Finset.sum_add_distrib, ← Finset.mul_sum, ← Finset.mul_sum]
    simp only [Finset.sum_sub_distrib, ← Finset.mul_sum, ← Finset.sum_div]
    have hst : stoichAirFuelRatio * (Oo - 2 * Co - Ho / 2) = -(Of - 2 * Cf - Hf / 2) := by
      rw [hstoich]
      field_simp
    rw [← hCf, ← hHf, ← hOf, ← hCo, ← hHo, ← hOo, hst]
    ring
  refine ⟨_, hcalc, by simp, ?_, hbal, ?_⟩
  · rw [list_sum_range, ← Finset.sum_div, ← hSdef]
    exact div_self hS
  · intro h1
    rw [hbal, h1]
    simp

/-- Witness of C10: methane and air at `equivalenceRatio = 1` over `ℚ`; the oxidizer's
oxygen balance is `21/50`, the stoichiometric air/fuel ratio `200/21`, the unnormalised
sum `221/21`, and the mixture is stoichiometric. -/
theorem reactantMixture_balance_witness :
    (methaneX.length = 3 ∧ airX.length = 3 ∧ (21 / 50 : ℚ) - 2 * 0 - 0 / 2 ≠ 0
      ∧ (221 / 21 : ℚ) ≠ 0) ∧
    ∃ reactants : List ℚ,
      calculateReactantMixture methaneAirC methaneAirH methaneAirO methaneX airX 3 1
        = some reactants ∧
      reactants.length = 3 ∧ reactants.sum = 1 ∧
      ∑ k in Finset.range 3,
          (methaneAirO k - 2 * methaneAirC k - methaneAirH k / 2) * reactants.getD k 0
        = (1 - 1) * (0 - 2 * 1 - 4 / 2) / (221 / 21) ∧
      ((1 : ℚ) = 1 → ∑ k in Finset.range 3,
          (methaneAirO k - 2 * methaneAirC k - methaneAirH k / 2) * reactants.getD k 0 = 0) :=
  ⟨⟨rfl, rfl, by norm_num, by norm_num⟩,
    reactantMixture_balance methaneAirC methaneAirH methaneAirO methaneX airX 3 1
      1 4 0 0 0 (21 / 50) (200 / 21) (221 / 21) rfl rfl
      (by norm_num [Finset.sum_range_succ, methaneAirC, methaneX])
      (by norm_num [Finset.sum_range_succ, methaneAirH, methaneX])
      (by norm_num [Finset.sum_range_succ, methaneAirO, methaneX])
      (by norm_num [Finset.sum_range_succ, methaneAirC, airX])
      (by norm_num [Finset.sum_range_succ, methaneAirH, airX])
      (by norm_num [Finset.sum_range_succ, methaneAirO, airX])
      (by norm_num)
      (by norm_num [Finset.sum_range_succ, methaneX, airX])
      (by norm_num) (by norm_num)⟩


end Ember
